import Mathlib

/-
Shallow embedding of the kd-tree from kdtree/kdtree.go.

Modelling notes:
* The Go code stores coordinates as float64 but performs no floating-point
  arithmetic on them: the only operations are order comparisons (<, >, ==)
  and min/max selection (math.Min, math.Max inside median3).  All claims are
  order-theoretic, so coordinates are modelled as integers (Int), a faithful
  linearly ordered domain for every code path exercised here.
* Go's in-place mutation is modelled by state passing: each operation returns
  the updated node/tree together with the Go function's error result
  (Option Err, none = nil).
* Go's node struct has pointer fields left/right that are either both nil
  (bucket leaf) or both set (internal node); makesplit always sets the two
  together and they are never unset.  The embedding uses a two-constructor
  inductive, Node.leaf / Node.inner, the `n.left != nil` test becoming the
  constructor match.
* insert and makesplit are mutually recursive in Go (makesplit re-inserts the
  leaf's points into the fresh children).  The embedding ties this knot with
  a fuel parameter bounding the nesting depth of the mutual calls;
  makesplitWith / redistWith take the insert function for the next level as
  an argument.  On every state reachable through the public API the nesting
  depth of one call is at most the tree height plus a small constant, and
  the fuel supplied by the public wrappers (Node.fuelBound) always exceeds
  that, so the fueled functions compute exactly the Go semantics there.
* Go indexing pt[i] panics when out of range; the embedding uses List.getD
  with default 0.  The two differ only on paths where Go would crash; all
  theorems below stay on non-panicking paths.
* The concurrent parts of Search (goroutines, channels, select) are modelled
  by their sequential denotation: the list of points a search emits, left
  child's output before the right's.  The channel interleaving only permutes
  this list, and every claim settled against it is order-insensitive.
-/

/-- Errors of kdtree.go: POINT_NOT_FOUND, EMPTYNODE, DIMENSION_ERROR. -/
inductive Err where
  | pointNotFound
  | emptyNode
  | dimensionError
deriving DecidableEq

/-- Go: type point []float64 (coordinates modelled as Int, see header). -/
abbrev Point := List Int

/-- Go: type node struct {dim int; split float64; left, right *node;
points []point; cap int}.  leaf = both child pointers nil, inner = both set. -/
inductive Node where
  | leaf (dim : Nat) (split : Int) (points : List Point) (cap : Nat)
  | inner (dim : Nat) (split : Int) (left right : Node) (points : List Point) (cap : Nat)
deriving DecidableEq

/-- Field accessor for node.dim. -/
def Node.dim : Node → Nat
  | .leaf d _ _ _ => d
  | .inner d _ _ _ _ _ => d

/-- Field accessor for node.split. -/
def Node.split : Node → Int
  | .leaf _ s _ _ => s
  | .inner _ s _ _ _ _ => s

/-- Field accessor for node.points. -/
def Node.points : Node → List Point
  | .leaf _ _ pts _ => pts
  | .inner _ _ _ _ pts _ => pts

/-- Field accessor for node.cap. -/
def Node.cap : Node → Nat
  | .leaf _ _ _ c => c
  | .inner _ _ _ _ _ c => c

/-- Go test n.left == nil: the node is a bucket leaf. -/
def Node.isLeaf : Node → Bool
  | .leaf _ _ _ _ => true
  | .inner _ _ _ _ _ _ => false

/-- Go: func median3(a, b, c float64) float64
{ return math.Max(math.Min(a, b), math.Min(math.Max(a, b), c)) }. -/
def median3 (a b c : Int) : Int :=
  max (min a b) (min (max a b) c)

/-- Go: func ninther(pts []float64) float64 — samples at indices
0, th, 2*th, ..., 8*th with th = floor(n/9), medians of triples, then
median of the medians. -/
def ninther (pts : List Int) : Int :=
  let n := pts.length
  let th := n / 9
  median3
    (median3 (pts.getD 0 0) (pts.getD (1 * th) 0) (pts.getD (2 * th) 0))
    (median3 (pts.getD (3 * th) 0) (pts.getD (4 * th) 0) (pts.getD (5 * th) 0))
    (median3 (pts.getD (6 * th) 0) (pts.getD (7 * th) 0) (pts.getD (8 * th) 0))

/-- Go: func (pt point) equals(pt2 point) bool — element-wise scan over the
receiver's entries, then a length check.  (When pt is longer than pt2 Go
panics indexing pt2; getD's default stands in for that unreachable path.) -/
def Point.equals (pt pt2 : Point) : Bool :=
  ((List.range pt.length).all fun i => pt.getD i 0 == pt2.getD i 0)
    && pt.length == pt2.length

/-- Leaf scan of node.delete: remove the first stored point q with
q.equals(pt); none when no stored point matches. -/
def removeFirst : List Point → Point → Option (List Point)
  | [], _ => none
  | q :: rest, pt =>
      if Point.equals q pt then some rest
      else (removeFirst rest pt).map fun l => q :: l

/-- Containment test of node.search's leaf loop: for every index i of pt,
not (pt[i] < bounds[i] or pt[i] > bounds[i+len(pt)]). -/
def within (pt : Point) (bounds : List Int) : Bool :=
  (List.range pt.length).all fun i =>
    !(decide (pt.getD i 0 < bounds.getD i 0)
      || decide (pt.getD i 0 > bounds.getD (i + pt.length) 0))

/-- Go: func (n *node) search(bounds []float64, c chan<- point) — sequential
denotation (see header): the list of points emitted, left subtree's points
before the right's.  Left explored iff n.split > bounds[n.dim], right
explored iff n.split < bounds[n.dim+len(bounds)/2]. -/
def Node.search : Node → List Int → List Point
  | .inner d s l r _ _, bounds =>
      (if s > bounds.getD d 0 then l.search bounds else []) ++
      (if s < bounds.getD (d + bounds.length / 2) 0 then r.search bounds else [])
  | .leaf _ _ pts _, bounds => pts.filter fun pt => within pt bounds

/-- Go: func (n *node) delete(pt point) error — descends by pt[dim] < split,
removes the first equal point at the leaf.  As in the source, the error of
the recursive call at an internal node is discarded. -/
def Node.delete : Node → Point → Node × Option Err
  | .inner d s l r pts c, pt =>
      if pt.getD d 0 < s then (Node.inner d s (Node.delete l pt).1 r pts c, none)
      else (Node.inner d s l (Node.delete r pt).1 pts c, none)
  | .leaf d s pts c, pt =>
      match removeFirst pts pt with
      | some pts2 => (Node.leaf d s pts2 c, none)
      | none => (Node.leaf d s pts c, some Err.pointNotFound)

/-- Redistribution loop of makesplit: for each pt in points, insert into the
left child if pt[dim] < split, else into the right child.  The insert
function of the enclosing fuel level is passed as ins. -/
def redistWith (ins : Node → Point → Node × Option Err) (dim : Nat) (s : Int) :
    Node × Node → List Point → Node × Node
  | lr, [] => lr
  | lr, pt :: rest =>
      if pt.getD dim 0 < s then redistWith ins dim s ((ins lr.1 pt).1, lr.2) rest
      else redistWith ins dim s (lr.1, (ins lr.2 pt).1) rest

/-- Go: func (n *node) makesplit(dim int) error — empty leaves give EMPTYNODE;
otherwise split = ninther of the dim-coordinates, two fresh empty leaf
children with dim = (dim+1) % len(points[0]) and the parent's cap, the
points redistributed by pt[dim] < split, and the node's own storage
cleared.  ins is the insert of the enclosing fuel level. -/
def makesplitWith (ins : Node → Point → Node × Option Err) (n : Node) (dim : Nat) :
    Node × Option Err :=
  if n.points.length = 0 then (n, some Err.emptyNode)
  else
    let vals := n.points.map fun p => p.getD dim 0
    let s := ninther vals
    let kk := (n.points.headD []).length
    let child : Node := Node.leaf ((dim + 1) % kk) 0 [] n.cap
    let lr := redistWith ins dim s (child, child) n.points
    (Node.inner n.dim s lr.1 lr.2 [] n.cap, none)

/-- Go: func (n *node) insert(pt point) error, with fuel bounding the nesting
depth of the insert/makesplit mutual recursion.  Internal nodes route by
pt[dim] < split (errors of the recursive call discarded, as in the source);
a leaf at capacity triggers makesplit (the argument point is NOT inserted
afterwards — this mirrors the source faithfully); otherwise append. -/
def Node.insertF : Nat → Node → Point → Node × Option Err
  | 0, n, _ => (n, none)
  | f + 1, n, pt =>
      match n with
      | Node.leaf d s pts c =>
          if pts.length = c then
            makesplitWith (fun m q => Node.insertF f m q) (Node.leaf d s pts c) d
          else (Node.leaf d s (pts ++ [pt]) c, none)
      | Node.inner d s l r pts c =>
          if pt.getD d 0 < s then (Node.inner d s (Node.insertF f l pt).1 r pts c, none)
          else (Node.inner d s l (Node.insertF f r pt).1 pts c, none)

/-- Total number of stored points. -/
def Node.sz : Node → Nat
  | .leaf _ _ pts _ => pts.length
  | .inner _ _ l r pts _ => pts.length + l.sz + r.sz

/-- Number of nodes. -/
def Node.sizeN : Node → Nat
  | .leaf _ _ _ _ => 1
  | .inner _ _ l r _ _ => 1 + l.sizeN + r.sizeN

/-- Fuel amply exceeding the nesting depth of any insert/makesplit call
starting from this node (depth ≤ height + 3 ≤ sizeN + 3 on states where no
leaf exceeds its capacity, which the public API maintains). -/
def Node.fuelBound (n : Node) : Nat := n.sz + n.sizeN + 4

/-- node.insert at the Go semantics (fuel supplied by fuelBound). -/
def Node.insert (n : Node) (pt : Point) : Node × Option Err :=
  Node.insertF n.fuelBound n pt

/-- node.makesplit at the Go semantics (fuel supplied by fuelBound). -/
def Node.makesplit (n : Node) (dim : Nat) : Node × Option Err :=
  makesplitWith (fun m q => Node.insertF n.fuelBound m q) n dim

/-- Go: type KDTree struct {k int; root *node}. -/
structure KDTree where
  k : Nat
  root : Node
deriving DecidableEq

/-- Go: func NewKDTree(k int) *KDTree — root is an empty leaf with dim 0,
split 0, capacity 64. -/
def NewKDTree (k : Nat) : KDTree :=
  { k := k, root := Node.leaf 0 0 [] 64 }

/-- Go: func (kdtree *KDTree) Insert(pt point) error — delegates to the root
with no dimension check. -/
def KDTree.Insert (t : KDTree) (pt : Point) : KDTree × Option Err :=
  let r := Node.insert t.root pt
  ({ k := t.k, root := r.1 }, r.2)

/-- Go: func (kdtree *KDTree) Delete(pt point) error — delegates to the root
with no dimension check. -/
def KDTree.Delete (t : KDTree) (pt : Point) : KDTree × Option Err :=
  let r := Node.delete t.root pt
  ({ k := t.k, root := r.1 }, r.2)

/-- Go: func (kdtree *KDTree) Search(bbox []float64) ([]point, error) —
rejects len(bbox) != k*2 with DIMENSION_ERROR before any traversal,
otherwise drains the root's channel (sequential denotation). -/
def KDTree.Search (t : KDTree) (bbox : List Int) : List Point × Option Err :=
  if bbox.length ≠ t.k * 2 then ([], some Err.dimensionError)
  else (Node.search t.root bbox, none)

/-- Fold a list of Insert calls over a tree. -/
def insertAll (t : KDTree) (pts : List Point) : KDTree :=
  pts.foldl (fun t p => (t.Insert p).1) t

/-- A public mutating operation: Insert or Delete. -/
inductive Op where
  | ins (p : Point)
  | del (p : Point)

/-- Apply one public mutating operation. -/
def applyOp (t : KDTree) : Op → KDTree
  | .ins p => (t.Insert p).1
  | .del p => (t.Delete p).1

/-- Apply a sequence of public mutating operations. -/
def applyOps (t : KDTree) (ops : List Op) : KDTree :=
  ops.foldl applyOp t

/-- Every leaf stores at most its capacity. -/
def Node.leafOK : Node → Bool
  | .leaf _ _ pts c => pts.length ≤ c
  | .inner _ _ l r _ _ => l.leafOK && r.leafOK

/-- Every node (leaf and internal) carries capacity 64. -/
def Node.capAll64 : Node → Bool
  | .leaf _ _ _ c => c == 64
  | .inner _ _ l r _ c => (c == 64) && l.capAll64 && r.capAll64

/-- The 65 one-dimensional points [0], [1], ..., [64]. -/
def pts65 : List Point := (List.range 65).map fun i => [(i : Int)]

/-- The tree obtained by inserting pts65, in order, into NewKDTree 1.  The
65th insert finds the root leaf at capacity 64, splits it, and returns
without storing its argument. -/
def t65 : KDTree := insertAll (NewKDTree 1) pts65

/-- The tree obtained by inserting [0], ..., [63] into NewKDTree 1: a root
leaf holding exactly capacity = 64 points. -/
def t64 : KDTree := insertAll (NewKDTree 1) ((List.range 64).map fun i => [(i : Int)])

/-- Redistribution preserves any node predicate that insertion preserves. -/
theorem redistWith_pres {P : Node → Bool} {ins : Node → Point → Node × Option Err}
    (hins : ∀ n pt, P n = true → P (ins n pt).1 = true) :
    ∀ (pts : List Point) (dim : Nat) (s : Int) (lr : Node × Node),
      P lr.1 = true → P lr.2 = true →
      P (redistWith ins dim s lr pts).1 = true ∧
        P (redistWith ins dim s lr pts).2 = true := by
  intro pts
  induction pts with
  | nil => intro dim s lr h1 h2; simp only [redistWith]; exact ⟨h1, h2⟩
  | cons pt rest ih =>
      intro dim s lr h1 h2
      simp only [redistWith]
      by_cases h : pt.getD dim 0 < s
      · rw [if_pos h]; exact ih dim s _ (hins _ _ h1) h2
      · rw [if_neg h]; exact ih dim s _ h1 (hins _ _ h2)

/-- makesplit preserves the leaf-capacity bound whenever insertion does. -/
theorem makesplitWith_leafOK {ins : Node → Point → Node × Option Err}
    (hins : ∀ n pt, Node.leafOK n = true → Node.leafOK (ins n pt).1 = true)
    (n : Node) (dim : Nat) (h : Node.leafOK n = true) :
    Node.leafOK (makesplitWith ins n dim).1 = true := by
  unfold makesplitWith
  by_cases h0 : n.points.length = 0
  · rw [if_pos h0]; exact h
  · rw [if_neg h0]
    simp only
    have hc : Node.leafOK
        (Node.leaf ((dim + 1) % (n.points.headD []).length) 0 [] n.cap) = true := by
      simp [Node.leafOK]
    have hred := redistWith_pres hins n.points dim
      (ninther (n.points.map fun p => p.getD dim 0)) (_, _) hc hc
    simp only [Node.leafOK, Bool.and_eq_true]
    exact ⟨hred.1, hred.2⟩

/-- Insertion at any fuel preserves the leaf-capacity bound. -/
theorem insertF_leafOK : ∀ (f : Nat) (n : Node) (pt : Point),
    Node.leafOK n = true → Node.leafOK (Node.insertF f n pt).1 = true := by
  intro f
  induction f with
  | zero => intro n pt h; simpa only [Node.insertF] using h
  | succ f ih =>
      intro n pt h
      cases n with
      | leaf d s pts c =>
          simp only [Node.insertF]
          by_cases hc : pts.length = c
          · rw [if_pos hc]; exact makesplitWith_leafOK ih _ _ h
          · rw [if_neg hc]
            simp only [Node.leafOK] at h ⊢
            simp only [List.length_append, List.length_cons, List.length_nil]
            simp only [decide_eq_true_eq] at h ⊢
            omega
      | inner d s l r pts c =>
          simp only [Node.leafOK, Bool.and_eq_true] at h
          simp only [Node.insertF]
          by_cases hlt : pt.getD d 0 < s
          · rw [if_pos hlt]
            simp only [Node.leafOK, Bool.and_eq_true]
            exact ⟨ih l pt h.1, h.2⟩
          · rw [if_neg hlt]
            simp only [Node.leafOK, Bool.and_eq_true]
            exact ⟨h.1, ih r pt h.2⟩

/-- Public Insert preserves the leaf-capacity bound. -/
theorem Insert_leafOK (t : KDTree) (pt : Point) (h : Node.leafOK t.root = true) :
    Node.leafOK ((t.Insert pt).1).root = true := by
  simp only [KDTree.Insert, Node.insert]
  exact insertF_leafOK _ _ _ h

/-- insertAll preserves the leaf-capacity bound. -/
theorem insertAll_leafOK : ∀ (pts : List Point) (t : KDTree),
    Node.leafOK t.root = true → Node.leafOK (insertAll t pts).root = true := by
  intro pts
  induction pts with
  | nil => intro t h; exact h
  | cons p rest ih =>
      intro t h
      simp only [insertAll, List.foldl_cons]
      exact ih _ (Insert_leafOK t p h)

/-- A node satisfying capAll64 carries capacity 64. -/
theorem capAll64_cap {n : Node} (h : Node.capAll64 n = true) : n.cap = 64 := by
  cases n with
  | leaf d s pts c => simpa [Node.capAll64, Node.cap] using h
  | inner d s l r pts c =>
      simp only [Node.capAll64, Bool.and_eq_true, beq_iff_eq] at h
      simpa [Node.cap] using h.1.1

/-- makesplit preserves capacity-64 whenever insertion does. -/
theorem makesplitWith_capAll64 {ins : Node → Point → Node × Option Err}
    (hins : ∀ n pt, Node.capAll64 n = true → Node.capAll64 (ins n pt).1 = true)
    (n : Node) (dim : Nat) (h : Node.capAll64 n = true) :
    Node.capAll64 (makesplitWith ins n dim).1 = true := by
  unfold makesplitWith
  by_cases h0 : n.points.length = 0
  · rw [if_pos h0]; exact h
  · rw [if_neg h0]
    simp only
    have hc : Node.capAll64
        (Node.leaf ((dim + 1) % (n.points.headD []).length) 0 [] n.cap) = true := by
      simp [Node.capAll64, capAll64_cap h]
    have hred := redistWith_pres hins n.points dim
      (ninther (n.points.map fun p => p.getD dim 0)) (_, _) hc hc
    simp only [Node.capAll64, Bool.and_eq_true, beq_iff_eq]
    exact ⟨⟨capAll64_cap h, hred.1⟩, hred.2⟩

/-- Insertion at any fuel preserves capacity-64. -/
theorem insertF_capAll64 : ∀ (f : Nat) (n : Node) (pt : Point),
    Node.capAll64 n = true → Node.capAll64 (Node.insertF f n pt).1 = true := by
  intro f
  induction f with
  | zero => intro n pt h; simpa only [Node.insertF] using h
  | succ f ih =>
      intro n pt h
      cases n with
      | leaf d s pts c =>
          simp only [Node.insertF]
          by_cases hc : pts.length = c
          · rw [if_pos hc]; exact makesplitWith_capAll64 ih _ _ h
          · rw [if_neg hc]
            simpa [Node.capAll64] using h
      | inner d s l r pts c =>
          simp only [Node.capAll64, Bool.and_eq_true] at h
          simp only [Node.insertF]
          by_cases hlt : pt.getD d 0 < s
          · rw [if_pos hlt]
            simp only [Node.capAll64, Bool.and_eq_true]
            exact ⟨⟨h.1.1, ih l pt h.1.2⟩, h.2⟩
          · rw [if_neg hlt]
            simp only [Node.capAll64, Bool.and_eq_true]
            exact ⟨⟨h.1.1, h.1.2⟩, ih r pt h.2⟩

/-- Deletion preserves capacity-64. -/
theorem delete_capAll64 : ∀ (n : Node) (pt : Point),
    Node.capAll64 n = true → Node.capAll64 (Node.delete n pt).1 = true := by
  intro n
  induction n with
  | leaf d s pts c =>
      intro pt h
      simp only [Node.delete]
      cases hr : removeFirst pts pt with
      | some pts2 => simpa [Node.capAll64] using h
      | none => simpa [Node.capAll64] using h
  | inner d s l r pts c ihl ihr =>
      intro pt h
      simp only [Node.capAll64, Bool.and_eq_true] at h
      simp only [Node.delete]
      by_cases hlt : pt.getD d 0 < s
      · rw [if_pos hlt]
        simp only [Node.capAll64, Bool.and_eq_true]
        exact ⟨⟨h.1.1, ihl pt h.1.2⟩, h.2⟩
      · rw [if_neg hlt]
        simp only [Node.capAll64, Bool.and_eq_true]
        exact ⟨⟨h.1.1, h.1.2⟩, ihr pt h.2⟩

/-- Any public mutating operation preserves capacity-64. -/
theorem applyOp_capAll64 (t : KDTree) (op : Op) (h : Node.capAll64 t.root = true) :
    Node.capAll64 (applyOp t op).root = true := by
  cases op with
  | ins p =>
      simp only [applyOp, KDTree.Insert, Node.insert]
      exact insertF_capAll64 _ _ _ h
  | del p =>
      simp only [applyOp, KDTree.Delete]
      exact delete_capAll64 _ _ h

/-- Inserting into a leaf that is not exactly at capacity appends. -/
theorem insertF_leaf_append (f d : Nat) (s : Int) (pts : List Point) (c : Nat) (pt : Point)
    (h : ¬ pts.length = c) :
    Node.insertF (f + 1) (Node.leaf d s pts c) pt = (Node.leaf d s (pts ++ [pt]) c, none) := by
  simp only [Node.insertF, if_neg h]

/-- When the receiving children are leaves with enough spare capacity, the
redistribution loop is append-only: the left child receives, in order, the
points with coordinate below the split, the right child the others. -/
theorem redistWith_leaf (f : Nat) (dim : Nat) (s : Int) :
    ∀ (pts : List Point) (d1 : Nat) (s1 : Int) (P1 : List Point) (d2 : Nat) (s2 : Int)
      (P2 : List Point) (c : Nat),
      P1.length + P2.length + pts.length ≤ c →
      redistWith (fun m q => Node.insertF (f + 1) m q) dim s
          (Node.leaf d1 s1 P1 c, Node.leaf d2 s2 P2 c) pts =
        (Node.leaf d1 s1 (P1 ++ pts.filter fun p => decide (p.getD dim 0 < s)) c,
         Node.leaf d2 s2 (P2 ++ pts.filter fun p => !decide (p.getD dim 0 < s)) c) := by
  intro pts
  induction pts with
  | nil => intro d1 s1 P1 d2 s2 P2 c h; simp [redistWith]
  | cons pt rest ih =>
      intro d1 s1 P1 d2 s2 P2 c h
      simp only [List.length_cons] at h
      simp only [redistWith]
      by_cases hlt : pt.getD dim 0 < s
      · rw [if_pos hlt]
        have hne : ¬ P1.length = c := by omega
        simp only [insertF_leaf_append f d1 s1 P1 c pt hne]
        rw [ih d1 s1 (P1 ++ [pt]) d2 s2 P2 c (by simp; omega)]
        have hlt2 : pt[dim]?.getD 0 < s := by simpa [List.getD] using hlt
        have hle : ¬ s ≤ pt[dim]?.getD 0 := not_le.mpr hlt2
        simp [List.filter_cons, hlt2, hle, List.append_assoc]
      · rw [if_neg hlt]
        have hne : ¬ P2.length = c := by omega
        simp only [insertF_leaf_append f d2 s2 P2 c pt hne]
        rw [ih d1 s1 P1 d2 s2 (P2 ++ [pt]) c (by simp; omega)]
        have hlt2 : ¬ pt[dim]?.getD 0 < s := by simpa [List.getD] using hlt
        have hle : s ≤ pt[dim]?.getD 0 := not_lt.mp hlt2
        simp [List.filter_cons, hlt2, hle, List.append_assoc]

/-- makesplit on a nonempty leaf holding at most its capacity: the node
becomes internal with split = ninther of the dim-coordinates and two leaf
children with dim = (dim+1) mod len(points[0]) and the parent's capacity,
the left holding exactly the points with coordinate < split, the right the
rest. -/
theorem makesplit_leaf_eq (d : Nat) (s0 : Int) (pts : List Point) (c : Nat)
    (hne : pts ≠ []) (hlen : pts.length ≤ c) :
    Node.makesplit (Node.leaf d s0 pts c) d =
      (Node.inner d (ninther (pts.map fun p => p.getD d 0))
        (Node.leaf ((d + 1) % (pts.headD []).length) 0
          (pts.filter fun p => decide (p.getD d 0 < ninther (pts.map fun p => p.getD d 0))) c)
        (Node.leaf ((d + 1) % (pts.headD []).length) 0
          (pts.filter fun p => !decide (p.getD d 0 < ninther (pts.map fun p => p.getD d 0))) c)
        [] c, none) := by
  unfold Node.makesplit makesplitWith
  have h0 : ¬ (Node.leaf d s0 pts c).points.length = 0 := by
    simpa [Node.points] using (List.length_pos.mpr hne).ne'
  rw [if_neg h0]
  have hfb : Node.fuelBound (Node.leaf d s0 pts c) = (pts.length + 4) + 1 := by
    simp [Node.fuelBound, Node.sz, Node.sizeN]
  simp only [hfb, Node.points, Node.cap, Node.dim, Node.split]
  rw [redistWith_leaf (pts.length + 4) d
    (ninther (pts.map fun p => p.getD d 0)) pts
    ((d + 1) % (pts.headD []).length) 0 []
    ((d + 1) % (pts.headD []).length) 0 [] c (by simpa using hlen)]
  simp

set_option linter.unnecessarySeqFocus false in
/-- median3 computes the true median of its three arguments: it is the middle
element (index 1) of a sorted rearrangement of them. -/
theorem median3_is_median (a b c : Int) :
    ∃ l : List Int, l.Perm [a, b, c] ∧ l.Sorted (· ≤ ·) ∧ l.getD 1 0 = median3 a b c := by
  rcases le_total a b with hab | hab <;> rcases le_total b c with hbc | hbc <;>
    rcases le_total a c with hac | hac
  · refine ⟨[a, b, c], List.Perm.refl _, ?_, ?_⟩
    · simp [List.sorted_cons]; omega
    · simp only [List.getD_cons_succ, List.getD_cons_zero, median3, min_def, max_def]
      split_ifs <;> omega
  · refine ⟨[a, b, c], List.Perm.refl _, ?_, ?_⟩
    · simp [List.sorted_cons]; omega
    · simp only [List.getD_cons_succ, List.getD_cons_zero, median3, min_def, max_def]
      split_ifs <;> omega
  · refine ⟨[a, c, b], List.Perm.cons a (List.Perm.swap b c []), ?_, ?_⟩
    · simp [List.sorted_cons]; omega
    · simp only [List.getD_cons_succ, List.getD_cons_zero, median3, min_def, max_def]
      split_ifs <;> omega
  · refine ⟨[c, a, b],
        (List.Perm.swap a c [b]).trans (List.Perm.cons a (List.Perm.swap b c [])), ?_, ?_⟩
    · simp [List.sorted_cons]; omega
    · simp only [List.getD_cons_succ, List.getD_cons_zero, median3, min_def, max_def]
      split_ifs <;> omega
  · refine ⟨[b, a, c], List.Perm.swap a b [c], ?_, ?_⟩
    · simp [List.sorted_cons]; omega
    · simp only [List.getD_cons_succ, List.getD_cons_zero, median3, min_def, max_def]
      split_ifs <;> omega
  · refine ⟨[b, c, a],
        (List.Perm.cons b (List.Perm.swap a c [])).trans (List.Perm.swap a b [c]), ?_, ?_⟩
    · simp [List.sorted_cons]; omega
    · simp only [List.getD_cons_succ, List.getD_cons_zero, median3, min_def, max_def]
      split_ifs <;> omega
  · refine ⟨[c, b, a], (List.Perm.swap b c [a]).trans
        ((List.Perm.cons b (List.Perm.swap a c [])).trans (List.Perm.swap a b [c])), ?_, ?_⟩
    · simp [List.sorted_cons]; omega
    · simp only [List.getD_cons_succ, List.getD_cons_zero, median3, min_def, max_def]
      split_ifs <;> omega
  · refine ⟨[c, b, a], (List.Perm.swap b c [a]).trans
        ((List.Perm.cons b (List.Perm.swap a c [])).trans (List.Perm.swap a b [c])), ?_, ?_⟩
    · simp [List.sorted_cons]; omega
    · simp only [List.getD_cons_succ, List.getD_cons_zero, median3, min_def, max_def]
      split_ifs <;> omega

set_option maxRecDepth 200000 in
/-- C1: Insert/Search agreement — REFUTED on the code.  After the 65 inserts
of pts65 (all of which lie inside the query box [-1000, 1000]), Search
returns only 64 points and omits the inserted in-box point [64]: the 65th
Insert hit a full leaf, split it, and dropped its argument, so the result is
not the multiset of inserted points satisfying the containment predicate. -/
theorem C1_search_misses_inserted_point :
    pts65.length = 65 ∧
    pts65.all (fun p => within p [-1000, 1000]) = true ∧
    (t65.Search [-1000, 1000]).2 = none ∧
    (t65.Search [-1000, 1000]).1.length = 64 ∧
    [(64 : Int)] ∈ pts65 ∧
    [(64 : Int)] ∉ (t65.Search [-1000, 1000]).1 := by
  decide

set_option maxRecDepth 200000 in
/-- C2: insert into a full leaf splits the leaf and then stores the argument
point — REFUTED on the code.  t64's root is a leaf at capacity (64 points,
cap 64); inserting [64] returns nil and does split the leaf (the root is no
longer a leaf), but the tree still holds only 64 points and a full-range
Search does not find [64]: the argument is never inserted after the split. -/
theorem C2_split_drops_argument :
    t64.root.isLeaf = true ∧
    t64.root.points.length = 64 ∧
    t64.root.cap = 64 ∧
    ((t64.Insert [(64 : Int)]).2 = none) ∧
    ((t64.Insert [(64 : Int)]).1.root.isLeaf = false) ∧
    ((t64.Insert [(64 : Int)]).1.root.sz = 64) ∧
    [(64 : Int)] ∉ ((t64.Insert [(64 : Int)]).1.Search [-1000, 1000]).1 := by
  decide

set_option maxRecDepth 200000 in
/-- C3: Delete of an absent point returns PointNotFound with contents
unchanged — REFUTED on the code for any tree whose root is internal.  In
t65 (root split), [1000] was never inserted, yet Delete([1000]) returns nil
rather than PointNotFound: node.delete discards the error of its recursive
call.  The tree is indeed left unchanged. -/
theorem C3_delete_error_swallowed :
    ((t65.Delete [(1000 : Int)]).2 = none) ∧
    ((t65.Delete [(1000 : Int)]).2 ≠ some Err.pointNotFound) ∧
    ((t65.Delete [(1000 : Int)]).1 = t65) := by
  decide

/-- C4 counterexample: Insert with a point whose length differs from the
tree's dimensionality k does NOT return DimensionMismatch and does modify
the tree: inserting the 1-dimensional point [5] into a k = 2 tree returns
nil and stores the point. -/
theorem C4_insert_no_dimension_check :
    (((NewKDTree 2).Insert [(5 : Int)]).2 ≠ some Err.dimensionError) ∧
    (((NewKDTree 2).Insert [(5 : Int)]).1 ≠ NewKDTree 2) := by
  decide

/-- C4 (amended): Search with a box whose length differs from 2k returns
DimensionMismatch synchronously with no traversal and no mutation; Insert
performs no dimension validation at all — a point of any mismatched length
is appended to the target leaf and nil is returned. -/
theorem C4_dimension_validation_amended :
    (∀ (t : KDTree) (bbox : List Int), bbox.length ≠ t.k * 2 →
        t.Search bbox = ([], some Err.dimensionError)) ∧
    (∀ (k : Nat) (pt : Point), pt.length ≠ k →
        ((NewKDTree k).Insert pt).2 = none ∧
        ((NewKDTree k).Insert pt).1.root = Node.leaf 0 0 [pt] 64) := by
  constructor
  · intro t bbox h
    simp [KDTree.Search, h]
  · intro k pt _
    constructor <;> rfl

/-- C4 witness: the amended statement at concrete inputs — a length-1 box on
a k = 2 tree is rejected; a length-1 point inserted into a fresh k = 2 tree
is stored with no error. -/
theorem C4_dimension_validation_amended_witness :
    (NewKDTree 2).Search [(0 : Int)] = ([], some Err.dimensionError) ∧
    (((NewKDTree 2).Insert [(5 : Int)]).2 = none ∧
      ((NewKDTree 2).Insert [(5 : Int)]).1.root = Node.leaf 0 0 [[(5 : Int)]] 64) :=
  ⟨C4_dimension_validation_amended.1 (NewKDTree 2) [(0 : Int)] (by decide),
   C4_dimension_validation_amended.2 2 [(5 : Int)] (by decide)⟩

/-- C5: at an internal node (dim, split), Search's result contains a point
through the left subtree iff split > box.min_dim (bounds[dim]) and through
the right subtree iff split < box.max_dim (bounds[dim + len(bounds)/2]); a
subtree failing its condition contributes no points. -/
theorem C5_search_pruning (d : Nat) (s : Int) (l r : Node) (pts : List Point) (c : Nat)
    (bounds : List Int) (p : Point) :
    p ∈ Node.search (Node.inner d s l r pts c) bounds ↔
      ((s > bounds.getD d 0 ∧ p ∈ Node.search l bounds) ∨
       (s < bounds.getD (d + bounds.length / 2) 0 ∧ p ∈ Node.search r bounds)) := by
  simp only [Node.search, List.mem_append]
  by_cases h1 : s > bounds.getD d 0 <;>
    by_cases h2 : s < bounds.getD (d + bounds.length / 2) 0 <;>
      simp [h1, h2]

/-- C6: after any sequence of Insert calls of length-k points into a fresh
tree every leaf holds at most its capacity; and splitting a leaf that holds
at most its capacity produces two leaf children that exactly partition the
pre-split points — the left child holding precisely those with
split-dimension coordinate strictly below the split value, the right child
the rest, and together a permutation of the original points. -/
theorem C6_leaf_capacity_split_partition :
    (∀ (k : Nat) (pts : List Point), (∀ p ∈ pts, p.length = k) →
        Node.leafOK (insertAll (NewKDTree k) pts).root = true) ∧
    (∀ (d : Nat) (s0 : Int) (pts : List Point) (c : Nat), pts ≠ [] → pts.length ≤ c →
        ∃ (s : Int) (dL : Nat) (PL PR : List Point),
          Node.makesplit (Node.leaf d s0 pts c) d =
            (Node.inner d s (Node.leaf dL 0 PL c) (Node.leaf dL 0 PR c) [] c, none) ∧
          PL = pts.filter (fun p => decide (p.getD d 0 < s)) ∧
          PR = pts.filter (fun p => !decide (p.getD d 0 < s)) ∧
          (PL ++ PR).Perm pts) := by
  constructor
  · intro k pts _
    exact insertAll_leafOK pts _ rfl
  · intro d s0 pts c hne hlen
    exact ⟨ninther (pts.map fun p => p.getD d 0), (d + 1) % (pts.headD []).length, _, _,
      makesplit_leaf_eq d s0 pts c hne hlen, rfl, rfl, List.filter_append_perm _ pts⟩

/-- C6 witness: the two parts at concrete inputs — one insert into a fresh
k = 1 tree keeps every leaf within capacity, and splitting the full leaf
holding [[1]] yields children partitioning its points. -/
theorem C6_leaf_capacity_split_partition_witness :
    Node.leafOK (insertAll (NewKDTree 1) [[(1 : Int)]]).root = true ∧
    (∃ (s : Int) (dL : Nat) (PL PR : List Point),
      Node.makesplit (Node.leaf 0 0 [[(1 : Int)]] 1) 0 =
        (Node.inner 0 s (Node.leaf dL 0 PL 1) (Node.leaf dL 0 PR 1) [] 1, none) ∧
      PL = [[(1 : Int)]].filter (fun p => decide (p.getD 0 0 < s)) ∧
      PR = [[(1 : Int)]].filter (fun p => !decide (p.getD 0 0 < s)) ∧
      (PL ++ PR).Perm [[(1 : Int)]]) :=
  ⟨C6_leaf_capacity_split_partition.1 1 [[(1 : Int)]] (by decide),
   C6_leaf_capacity_split_partition.2 0 0 [[(1 : Int)]] 1 (by decide) (by decide)⟩

/-- C7: splitting an empty leaf is an EmptyNode error; splitting a nonempty
leaf assigns as split value the ninther of the points' coordinates along the
split dimension — samples at indices 0, th, 2*th, ..., 8*th for
th = floor(n/9), median of each consecutive triple, then median of the three
medians — where median3 genuinely computes the median (middle element of a
sorted rearrangement) of its three arguments. -/
theorem C7_ninther_split :
    (∀ (d : Nat) (s0 : Int) (c dim : Nat),
        Node.makesplit (Node.leaf d s0 [] c) dim =
          (Node.leaf d s0 [] c, some Err.emptyNode)) ∧
    (∀ (d : Nat) (s0 : Int) (pts : List Point) (c : Nat), pts ≠ [] →
        ((Node.makesplit (Node.leaf d s0 pts c) d).1).split =
          (let vals := pts.map fun p => p.getD d 0
           let th := vals.length / 9
           median3
             (median3 (vals.getD 0 0) (vals.getD (1 * th) 0) (vals.getD (2 * th) 0))
             (median3 (vals.getD (3 * th) 0) (vals.getD (4 * th) 0) (vals.getD (5 * th) 0))
             (median3 (vals.getD (6 * th) 0) (vals.getD (7 * th) 0) (vals.getD (8 * th) 0)))) ∧
    (∀ a b c : Int, ∃ l : List Int,
        l.Perm [a, b, c] ∧ l.Sorted (· ≤ ·) ∧ l.getD 1 0 = median3 a b c) := by
  refine ⟨?_, ?_, median3_is_median⟩
  · intro d s0 c dim
    rfl
  · intro d s0 pts c hne
    unfold Node.makesplit makesplitWith
    have h0 : ¬ (Node.leaf d s0 pts c).points.length = 0 := by
      simpa [Node.points] using (List.length_pos.mpr hne).ne'
    rw [if_neg h0]
    simp [Node.points, Node.split, ninther]

/-- C7 witness: the three parts at concrete inputs — the split of a leaf
holding [[2]] is 2, splitting an empty leaf errors with EmptyNode, and
median3 1 2 3 is the middle of a sorted rearrangement of 1, 2, 3. -/
theorem C7_ninther_split_witness :
    ((Node.makesplit (Node.leaf 0 0 [[(2 : Int)]] 1) 0).1).split = 2 ∧
    Node.makesplit (Node.leaf 0 0 ([] : List Point) 1) 0 =
      (Node.leaf 0 0 [] 1, some Err.emptyNode) ∧
    (∃ l : List Int, l.Perm [1, 2, 3] ∧ l.Sorted (· ≤ ·) ∧ l.getD 1 0 = median3 1 2 3) :=
  ⟨(C7_ninther_split.2.1 0 0 [[(2 : Int)]] 1 (by decide)).trans (by decide),
   C7_ninther_split.1 0 0 1 0,
   C7_ninther_split.2.2 1 2 3⟩

/-- C8: splitting a leaf whose points all have length k (the tree's
dimensionality) creates two leaf children, both with split dimension
(parent.dim + 1) mod k and the parent's capacity.  (The children are created
empty and then populated by the redistribution of the parent's points.) -/
theorem C8_split_children (d : Nat) (s0 : Int) (pts : List Point) (c k : Nat)
    (hne : pts ≠ []) (hlen : pts.length ≤ c) (hk : ∀ p ∈ pts, p.length = k) :
    ∃ (s : Int) (PL PR : List Point),
      Node.makesplit (Node.leaf d s0 pts c) d =
        (Node.inner d s (Node.leaf ((d + 1) % k) 0 PL c)
          (Node.leaf ((d + 1) % k) 0 PR c) [] c, none) := by
  have hhead : (pts.headD []).length = k := by
    cases pts with
    | nil => exact absurd rfl hne
    | cons q rest => exact hk q (List.mem_cons_self q rest)
  refine ⟨ninther (pts.map fun p => p.getD d 0),
    pts.filter (fun p => decide (p.getD d 0 < ninther (pts.map fun p => p.getD d 0))),
    pts.filter (fun p => !decide (p.getD d 0 < ninther (pts.map fun p => p.getD d 0))), ?_⟩
  rw [← hhead]
  exact makesplit_leaf_eq d s0 pts c hne hlen

/-- C8 witness: splitting a full leaf of a k = 2 tree at dimension 0 yields
children with dimension (0 + 1) mod 2 and the parent's capacity. -/
theorem C8_split_children_witness :
    ∃ (s : Int) (PL PR : List Point),
      Node.makesplit (Node.leaf 0 0 [[(1 : Int), (2 : Int)]] 1) 0 =
        (Node.inner 0 s (Node.leaf ((0 + 1) % 2) 0 PL 1)
          (Node.leaf ((0 + 1) % 2) 0 PR 1) [] 1, none) :=
  C8_split_children 0 0 [[(1 : Int), (2 : Int)]] 1 2 (by decide) (by decide) (by decide)

/-- C10: every tree built from NewKDTree by any sequence of Insert and
Delete operations has capacity exactly 64 at every node: the root leaf is
created with cap 64, split children inherit the parent's cap, and no public
operation can change it. -/
theorem C10_capacity_always_64 (k : Nat) (ops : List Op) :
    Node.capAll64 (applyOps (NewKDTree k) ops).root = true := by
  have start : Node.capAll64 (NewKDTree k).root = true := rfl
  have step : ∀ (opsl : List Op) (t : KDTree), Node.capAll64 t.root = true →
      Node.capAll64 (applyOps t opsl).root = true := by
    intro opsl
    induction opsl with
    | nil => intro t h; exact h
    | cons op rest ih =>
        intro t h
        simp only [applyOps, List.foldl_cons]
        exact ih _ (applyOp_capAll64 t op h)
  exact step ops _ start
